import Mathlib

/-!
Verification development for the editor-behavior tracking core of this
repository: the paste/typing classifier (`TrackingService.detectPaste` and
its caller `handleTextChange`), the static code feature extractor
(`CodeFeatureExtractor`), and the behavioral-to-skill scoring pipeline
(`SkillAnalysisService`).

The TypeScript code is shallowly embedded: JavaScript numbers are modelled
as `Nat` / `Int` for counters and as `Rat` for ratios, `Math.round` as
`jsRound` (floor of x + 1/2, which is the JavaScript half-up rounding),
and every division that the source guards against a zero denominator is
modelled with an `Option`-valued division so that an unguarded division by
zero would be visible as `none`.  Presentational string fields
(descriptions, issue/suggestion texts, learning-resource links) and
wall-clock timestamps are omitted from the embedded records: no embedded
computation reads them.
-/

namespace Extension12

/-- JavaScript `Math.round`: rounds half toward positive infinity,
which agrees with `⌊x + 1/2⌋` on all rationals. -/
def jsRound (q : ℚ) : ℤ := ⌊q + 1/2⌋

/-- Division as performed by the guarded ternaries in the source:
the guard is expected to ensure a nonzero denominator, so a zero
denominator is an error state, modelled as `none`. -/
def jdiv (a b : ℚ) : Option ℚ := if b = 0 then none else some (a / b)

/-- JavaScript `Math.round(x * 100) / 100` (round to 2 decimal places). -/
def round2 (q : ℚ) : ℚ := (jsRound (q * 100) : ℚ) / 100

/-!
## Paste/typing classifier (`TrackingService.detectPaste`)

Inputs are the current edit delta's added-character count, the wall-clock
gap to the previous change in milliseconds, and the number of inserted
lines.  Translated branch for branch from `detectPaste` in
`src/services/TrackingService.ts`.
-/

/-- `TrackingService.detectPaste(charactersAdded, timeSinceLastChange, linesAdded)`. -/
def detectPaste (charactersAdded timeSinceLastChange linesAdded : ℤ) : Bool :=
  if charactersAdded ≤ 30 then false
  else if 3 ≤ linesAdded ∧ timeSinceLastChange < 50 then true
  else if 300 < charactersAdded then true
  else if 150 < charactersAdded ∧ timeSinceLastChange < 20 then true
  else if 100 < charactersAdded ∧ timeSinceLastChange < 10 then true
  else if 50 < charactersAdded ∧ timeSinceLastChange < 5 then true
  else false

/-- One text-change delta as aggregated by `handleTextChange`
(`totalAdded`, `totalDeleted`, `linesAdded`, `linesDeleted`). -/
structure EditDelta where
  charactersAdded : ℤ
  charactersDeleted : ℤ
  linesAdded : ℤ
  linesDeleted : ℤ
deriving DecidableEq

/-- The classification `handleTextChange` performs on a delta: it passes
`totalAdded`, the inter-edit gap and `linesAdded` to `detectPaste`;
the deletion counts of the delta are not consulted. -/
def classifyDelta (d : EditDelta) (gapMs : ℤ) : Bool :=
  detectPaste d.charactersAdded gapMs d.linesAdded

/-- The decision rule exactly as the specification states it
(section 4.6, rules 1-7, first match wins).  Written from the spec text,
for comparison with the source-derived `detectPaste`. -/
def specPasteRule (charactersAdded gap linesAdded : ℤ) : Bool :=
  if charactersAdded ≤ 30 then false
  else if 3 ≤ linesAdded ∧ gap < 50 then true
  else if 300 < charactersAdded then true
  else if 150 < charactersAdded ∧ gap < 20 then true
  else if 100 < charactersAdded ∧ gap < 10 then true
  else if 50 < charactersAdded ∧ gap < 5 then true
  else false

/-!
## Character-level utilities

The feature extractor works on JavaScript strings.  Lines are modelled as
`List Char`; `String.split`, `String.trim` and the specific regular
expressions the source uses are implemented directly on character lists so
that every definition evaluates by kernel reduction.
-/

/-- JavaScript `str.split('\n')`: always returns at least one (possibly
empty) segment. -/
def splitOnNl : List Char → List (List Char)
  | [] => [[]]
  | c :: rest =>
      let r := splitOnNl rest
      if c = '\n' then [] :: r
      else
        match r with
        | h :: t => (c :: h) :: t
        | [] => [[c]]

/-- JavaScript `str.trim()` (whitespace removed from both ends). -/
def trimChars (l : List Char) : List Char :=
  ((l.dropWhile Char.isWhitespace).reverse.dropWhile Char.isWhitespace).reverse

/-- Substring containment, as an unanchored literal regex test. -/
def containsSub (pat : List Char) : List Char → Bool
  | [] => pat.isEmpty
  | c :: rest => pat.isPrefixOf (c :: rest) || containsSub pat rest

/-- Test for a regex of the shape `^\s*TOK`: optional leading whitespace
followed by the literal token. -/
def testStartAfterWs (tok : List Char) (l : List Char) : Bool :=
  tok.isPrefixOf (l.dropWhile Char.isWhitespace)

/-- JavaScript `str.replace(REGEX, '')` for a plain-substring regex:
removes the first occurrence of the token. -/
def removeFirstSub (pat : List Char) : List Char → List Char
  | [] => []
  | c :: rest =>
      if pat.isPrefixOf (c :: rest) then (c :: rest).drop pat.length
      else c :: removeFirstSub pat rest

/-- Non-overlapping left-to-right count of a literal token, as a global
regex match count.  The fuel argument (instantiated with the list length)
only makes the skip over a matched token structural. -/
def countTokAux (p : Char) (ps : List Char) : ℕ → List Char → ℕ
  | 0, _ => 0
  | _ + 1, [] => 0
  | fuel + 1, c :: rest =>
      if (p :: ps).isPrefixOf (c :: rest) then
        1 + countTokAux p ps fuel (rest.drop ps.length)
      else countTokAux p ps fuel rest

/-- Count of non-overlapping matches of the literal token `p :: ps`. -/
def countTok (p : Char) (ps : List Char) (l : List Char) : ℕ :=
  countTokAux p ps l.length l

/-- JavaScript `\w` (word character): ASCII letter, digit or underscore. -/
def isWordChar (c : Char) : Bool := c.isAlpha || c.isDigit || c = '_'

/-- A word boundary holds before the current position. -/
def boundaryOk : Option Char → Bool
  | none => true
  | some p => !(isWordChar p)

/-- A word boundary holds after a token of the given length. -/
def afterOk (kw l : List Char) : Bool :=
  match l.drop kw.length with
  | [] => true
  | n :: _ => !(isWordChar n)

/-- Count of positions where the alphabetic keyword matches with word
boundaries on both sides (`\bKW\b` with the global flag; such matches
cannot overlap, so the position count is the match count). -/
def countWordAux (kw : List Char) (prev : Option Char) : List Char → ℕ
  | [] => 0
  | c :: rest =>
      (if kw.isPrefixOf (c :: rest) && boundaryOk prev && afterOk kw (c :: rest)
       then 1 else 0) + countWordAux kw (some c) rest

/-- Count of word-boundary matches of a keyword. -/
def countWord (kw : String) (l : List Char) : ℕ := countWordAux kw.toList none l

/-!
## Complexity extractor (`CodeFeatureExtractor.extractComplexityMetrics`)

For each control-flow token the source builds
`new RegExp('\\' + keyword, 'g')` when the token has length at most 2 and
`new RegExp('\\b' + keyword + '\\b', 'g')` otherwise.  Only the FIRST
character of a short token is escaped, so the compiled regexes are:
`\if` (literal "if", no word boundaries), `\&&` (literal "&&"),
`\?` (literal "?"), `\||` (literal "|" OR the empty string) and
`\??` (an optional "?").  The last two match at every scan position: the
JavaScript global matcher either consumes one matching character or
records an empty match and bumps the position by one, and it records one
final empty match at the end of the string, giving `length + 1` matches
for every input.  The two functions below reproduce that scan.
-/

/-- Global match count of `\||` (the regex compiled for the token `||`):
one match per scan position plus the final empty match. -/
def matchAltPipeEmpty : List Char → ℕ
  | [] => 1
  | c :: rest =>
      if c = '|' then 1 + matchAltPipeEmpty rest  -- consumes the "|"
      else 1 + matchAltPipeEmpty rest             -- empty match, bump by one

/-- Global match count of `\??` (the regex compiled for the token `??`):
one match per scan position plus the final empty match. -/
def matchOptQM : List Char → ℕ
  | [] => 1
  | c :: rest =>
      if c = '?' then 1 + matchOptQM rest  -- consumes the "?"
      else 1 + matchOptQM rest             -- empty match, bump by one

/-- Complexity contribution of one trimmed line: the sum of the match
counts of the compiled regexes for the tokens of `CONTROL_FLOW_KEYWORDS`,
in source order. -/
def complexityOfLine (t : List Char) : ℕ :=
  countTok 'i' ['f'] t
  + countWord "else" t + countWord "elif" t + countWord "for" t
  + countWord "while" t + countWord "switch" t + countWord "case" t
  + countWord "try" t + countWord "catch" t + countWord "except" t
  + countWord "finally" t + countWord "with" t + countWord "match" t
  + countTok '&' ['&'] t
  + matchAltPipeEmpty t
  + countTok '?' [] t
  + matchOptQM t

/-- `extractComplexityMetrics`: base complexity 1 plus per-line keyword
counts, and the maximum of the running brace-nesting counter. -/
def extractComplexityMetrics (lines : List (List Char)) : ℕ × ℤ :=
  let r := lines.foldl
    (fun (acc : ℕ × ℤ × ℤ) line =>
      let (complexity, maxNesting, currentNesting) := acc
      let t := trimChars line
      let complexity := complexity + complexityOfLine t
      let openBraces := (t.countP (fun c => c = '\x7b') : ℤ)
      let closeBraces := (t.countP (fun c => c = '\x7d') : ℤ)
      let currentNesting := currentNesting + openBraces - closeBraces
      (complexity, max maxNesting currentNesting, currentNesting))
    (1, 0, 0)
  (r.1, r.2.1)

/-- Complexity contribution of one trimmed line as the specification
describes it: word-boundary matches for alphabetic keywords of length
greater than 2, and non-overlapping literal matches for the short tokens
`if`, `&&`, `||`, `?`, `??`. -/
def specComplexityOfLine (t : List Char) : ℕ :=
  countTok 'i' ['f'] t
  + countWord "else" t + countWord "elif" t + countWord "for" t
  + countWord "while" t + countWord "switch" t + countWord "case" t
  + countWord "try" t + countWord "catch" t + countWord "except" t
  + countWord "finally" t + countWord "with" t + countWord "match" t
  + countTok '&' ['&'] t
  + countTok '|' ['|'] t
  + countTok '?' [] t
  + countTok '?' ['?'] t

/-- Cyclomatic complexity as the specification describes it. -/
def specCyclomaticComplexity (lines : List (List Char)) : ℕ :=
  1 + (lines.map (fun line => specComplexityOfLine (trimChars line))).sum


/-!
## Line classification (`CodeFeatureExtractor.extractBasicMetrics`)

The per-language comment patterns of `COMMENT_PATTERNS` are embedded as
predicates on the trimmed line.  The triple-quote markers of the Python
and shell entries are built from character codes (39 is the single-quote
character, which cannot appear literally here).
-/

/-- One entry of `COMMENT_PATTERNS`: the single-line tests, the
block-start and block-end tests, the effect of
`trimmed.replace(blockStart, '')`, and the optional docstring test. -/
structure CommentPatterns where
  singleLine : List (List Char → Bool)
  blockStart : List Char → Bool
  blockEnd : List Char → Bool
  stripBlockStart : List Char → List Char
  docstring : Option (List Char → Bool)

/-- The single-quote character (code 39). -/
def sq : Char := Char.ofNat 39

/-- Python block marker: three single quotes. -/
def pyTriple : List Char := [sq, sq, sq]

/-- Python docstring marker: three double quotes. -/
def dqTriple : List Char := ['"', '"', '"']

/-- Shell block-start marker: colon, space, single quote. -/
def shellStart : List Char := [':', ' ', sq]

/-- The `default` entry (C-style comments). -/
def defaultCommentPatterns : CommentPatterns :=
  { singleLine := [testStartAfterWs ['/', '/']]
    blockStart := containsSub ['/', '*']
    blockEnd := containsSub ['*', '/']
    stripBlockStart := removeFirstSub ['/', '*']
    docstring := none }

/-- `COMMENT_PATTERNS[langKey] || COMMENT_PATTERNS.default`. -/
def COMMENT_PATTERNS (langKey : String) : CommentPatterns :=
  if langKey = "python" then
    { singleLine := [testStartAfterWs ['#']]
      blockStart := containsSub pyTriple
      blockEnd := containsSub pyTriple
      stripBlockStart := removeFirstSub pyTriple
      docstring := some (testStartAfterWs dqTriple) }
  else if langKey = "ruby" then
    { singleLine := [testStartAfterWs ['#']]
      blockStart := containsSub "=begin".toList
      blockEnd := containsSub "=end".toList
      stripBlockStart := removeFirstSub "=begin".toList
      docstring := none }
  else if langKey = "html" then
    { singleLine := []
      blockStart := containsSub "<!--".toList
      blockEnd := containsSub "-->".toList
      stripBlockStart := removeFirstSub "<!--".toList
      docstring := none }
  else if langKey = "css" then
    { singleLine := []
      blockStart := containsSub ['/', '*']
      blockEnd := containsSub ['*', '/']
      stripBlockStart := removeFirstSub ['/', '*']
      docstring := none }
  else if langKey = "shell" then
    { singleLine := [testStartAfterWs ['#']]
      blockStart := containsSub shellStart
      blockEnd := containsSub [sq]
      stripBlockStart := removeFirstSub shellStart
      docstring := none }
  else defaultCommentPatterns

/-- Result of `extractBasicMetrics`. -/
structure BasicMetrics where
  totalLines : ℕ
  codeLines : ℤ
  commentLines : ℕ
  blankLines : ℕ
deriving DecidableEq

/-- The per-line loop of `extractBasicMetrics`: accumulator is
(blank count, comment count, inside-block-comment flag). -/
def basicLoop (pats : CommentPatterns) (acc : ℕ × ℕ × Bool)
    (lines : List (List Char)) : ℕ × ℕ × Bool :=
  lines.foldl
    (fun (acc : ℕ × ℕ × Bool) line =>
      let (b, cm, inB) := acc
      let t := trimChars line
      if t.length = 0 then (b + 1, cm, inB)
      else if inB then (b, cm + 1, !pats.blockEnd t)
      else if pats.blockStart t then (b, cm + 1, !pats.blockEnd (pats.stripBlockStart t))
      else if pats.singleLine.any (fun p => p t) then (b, cm + 1, inB)
      else (b, cm, inB))
    acc

/-- `extractBasicMetrics(lines, langKey)`: blank/comment counts from the
loop, `codeLines = max(0, totalLines - blankLines - commentLines)`. -/
def extractBasicMetrics (lines : List (List Char)) (langKey : String) : BasicMetrics :=
  { totalLines := lines.length
    codeLines := max 0 ((lines.length : ℤ)
      - (basicLoop (COMMENT_PATTERNS langKey) (0, 0, false) lines).1
      - (basicLoop (COMMENT_PATTERNS langKey) (0, 0, false) lines).2.1)
    commentLines := (basicLoop (COMMENT_PATTERNS langKey) (0, 0, false) lines).2.1
    blankLines := (basicLoop (COMMENT_PATTERNS langKey) (0, 0, false) lines).1 }


/-!
## Behavioral metrics (`SkillAnalysisService.extractBehavioralMetrics`)

`FileMetrics` keeps the fields the embedded functions read; the remaining
source fields (`file`, `firstSeen`, `lastActive`, derived ratio caches and
presentation-only counters) are never consulted by the embedded
computations.
-/

/-- Per-file counters (`FileMetrics` of `tracking.types.ts`), restricted
to the fields read by the embedded functions. -/
structure FileMetrics where
  language : String
  keystrokeCount : ℕ
  pasteCount : ℕ
  linesAdded : ℕ
  linesDeleted : ℕ
  editCount : ℕ
  activeTimeMs : ℕ
  switchToCount : ℕ
  switchFromCount : ℕ
deriving DecidableEq

/-- A `FileMetrics` record with the given language and all counters 0. -/
def mkFM (lang : String) : FileMetrics := ⟨lang, 0, 0, 0, 0, 0, 0, 0, 0⟩

/-- `languageDistribution[f.language] = (languageDistribution[f.language] || 0) + 1`
on an association list in key-insertion order. -/
def insertCount : List (String × ℕ) → String → List (String × ℕ)
  | [], k => [(k, 1)]
  | (a, n) :: t, k =>
      if a = k then (a, n + 1) :: t else (a, n) :: insertCount t k

/-- Lookup of the first matching key in the association list, 0 when
absent (a missing JavaScript object property reads as undefined, and the
source only reads keys it has set; 0 is the pre-increment default). -/
def distLookup : List (String × ℕ) → String → ℕ
  | [], _ => 0
  | e :: t, k => if e.1 = k then e.2 else distLookup t k

/-- The `languageDistribution` object built by the `forEach` over files
(keys in first-encounter order, JavaScript object key semantics). -/
def buildDist (files : List FileMetrics) : List (String × ℕ) :=
  files.foldl (fun d f => insertCount d f.language) []

/-- `Object.keys(languageDistribution)`: the languages in first-encounter
order. -/
def distLanguages (files : List FileMetrics) : List String :=
  (buildDist files).map Prod.fst

/-- `languages.reduce((a, b) => dist[a] > dist[b] ? a : b, languages[0] || 'unknown')`. -/
def primaryLanguage (files : List FileMetrics) : String :=
  let langs := distLanguages files
  langs.foldl
    (fun a b =>
      if distLookup (buildDist files) a > distLookup (buildDist files) b then a else b)
    (langs.headD "unknown")

/-- `BehavioralMetrics` (`skill.types.ts`). -/
structure BehavioralMetrics where
  typingToTotalRatio : ℚ
  averageTypingSpeed : ℚ
  keystrokeCount : ℕ
  pasteCount : ℕ
  editCount : ℕ
  linesAdded : ℕ
  linesDeleted : ℕ
  backspaceRatio : ℚ
  activeTimeMs : ℕ
  idleTimeMs : ℕ
  focusRatio : ℚ
  languages : List String
  primaryLanguage : String
  languageDistribution : List (String × ℚ)
  fileCount : ℕ
  averageFileActiveTime : ℚ
  fileSwitchCount : ℕ

/-- `SkillAnalysisService.extractBehavioralMetrics(fileMetrics, totalActiveTime, totalIdleTime)`. -/
def extractBehavioralMetrics (files : List FileMetrics)
    (totalActiveTime totalIdleTime : ℕ) : BehavioralMetrics :=
  let keystrokeCount := (files.map (fun f => f.keystrokeCount)).sum
  let pasteCount := (files.map (fun f => f.pasteCount)).sum
  let linesAdded := (files.map (fun f => f.linesAdded)).sum
  let linesDeleted := (files.map (fun f => f.linesDeleted)).sum
  let editCount := (files.map (fun f => f.editCount)).sum
  let totalInput := keystrokeCount + pasteCount
  let typingToTotalRatio : ℚ :=
    if 0 < totalInput then (keystrokeCount : ℚ) / (totalInput : ℚ) else 0
  let backspaceRatio : ℚ :=
    if 0 < linesAdded then (linesDeleted : ℚ) / (linesAdded : ℚ) else 0
  let focusRatio : ℚ :=
    if 0 < totalActiveTime + totalIdleTime then
      (totalActiveTime : ℚ) / ((totalActiveTime + totalIdleTime : ℕ) : ℚ)
    else 0
  let languages := distLanguages files
  let totalFiles := files.length
  let activeMinutes : ℚ := (totalActiveTime : ℚ) / 60000
  let averageTypingSpeed : ℚ :=
    if 0 < activeMinutes then (keystrokeCount : ℚ) / activeMinutes else 0
  let fileSwitchCount :=
    (files.map (fun f => f.switchToCount + f.switchFromCount)).sum
  let averageFileActiveTime : ℚ :=
    if 0 < totalFiles then
      ((files.map (fun f => f.activeTimeMs)).sum : ℚ) / (totalFiles : ℚ)
    else 0
  { typingToTotalRatio := typingToTotalRatio
    averageTypingSpeed := averageTypingSpeed
    keystrokeCount := keystrokeCount
    pasteCount := pasteCount
    editCount := editCount
    linesAdded := linesAdded
    linesDeleted := linesDeleted
    backspaceRatio := backspaceRatio
    activeTimeMs := totalActiveTime
    idleTimeMs := totalIdleTime
    focusRatio := focusRatio
    languages := languages
    primaryLanguage := primaryLanguage files
    languageDistribution :=
      (buildDist files).map (fun e => (e.1, (e.2 : ℚ) / (totalFiles : ℚ) * 100))
    fileCount := totalFiles
    averageFileActiveTime := averageFileActiveTime
    fileSwitchCount := fileSwitchCount }

/-!
## Skill scoring (`SkillAnalysisService.calculateCategoryScores`,
`buildSkillProfile`, `generateRecommendations`)
-/

/-- `SkillLevel` (`skill.types.ts`). -/
inductive SkillLevel where
  | beginner | intermediate | advanced | expert
deriving DecidableEq

/-- `SkillCategory` (`skill.types.ts`). -/
inductive SkillCategory where
  | codingProficiency | problemSolving | focusConsistency
  | codeQuality | languageVersatility
deriving DecidableEq

/-- `SkillScore` without its presentational `description` string. -/
structure SkillScore where
  category : SkillCategory
  score : ℤ
  level : SkillLevel
deriving DecidableEq

/-- `scoreToLevel`. -/
def scoreToLevel (s : ℤ) : SkillLevel :=
  if 80 ≤ s then SkillLevel.expert
  else if 60 ≤ s then SkillLevel.advanced
  else if 40 ≤ s then SkillLevel.intermediate
  else SkillLevel.beginner

/-- Coding proficiency: `Math.round(typingToTotalRatio * 100)`. -/
def codingScore (m : BehavioralMetrics) : ℤ := jsRound (m.typingToTotalRatio * 100)

/-- `activeMinutes = activeTimeMs / 60000`. -/
def activeMinutes (m : BehavioralMetrics) : ℚ := (m.activeTimeMs : ℚ) / 60000

/-- `editsPerMinute = activeMinutes > 0 ? editCount / activeMinutes : 0`. -/
def editsPerMinute (m : BehavioralMetrics) : ℚ :=
  if 0 < activeMinutes m then (m.editCount : ℚ) / activeMinutes m else 0

/-- Problem solving: `Math.max(0, Math.round(100 - editsPerMinute * 10))`. -/
def problemSolvingScore (m : BehavioralMetrics) : ℤ :=
  max 0 (jsRound (100 - editsPerMinute m * 10))

/-- Focus and consistency: `Math.round(focusRatio * 100)`. -/
def focusScore (m : BehavioralMetrics) : ℤ := jsRound (m.focusRatio * 100)

/-- Code quality: `Math.max(0, Math.round((1 - backspaceRatio) * 100))`. -/
def qualityScore (m : BehavioralMetrics) : ℤ :=
  max 0 (jsRound ((1 - m.backspaceRatio) * 100))

/-- Language versatility: `Math.min(100, languages.length * 20)`. -/
def versatilityScore (m : BehavioralMetrics) : ℤ :=
  min 100 ((m.languages.length : ℤ) * 20)

/-- `calculateCategoryScores`: the five scores in source push order. -/
def calculateCategoryScores (m : BehavioralMetrics) : List SkillScore :=
  [⟨SkillCategory.codingProficiency, codingScore m, scoreToLevel (codingScore m)⟩,
   ⟨SkillCategory.problemSolving, problemSolvingScore m, scoreToLevel (problemSolvingScore m)⟩,
   ⟨SkillCategory.focusConsistency, focusScore m, scoreToLevel (focusScore m)⟩,
   ⟨SkillCategory.codeQuality, qualityScore m, scoreToLevel (qualityScore m)⟩,
   ⟨SkillCategory.languageVersatility, versatilityScore m, scoreToLevel (versatilityScore m)⟩]

/-- Stable insertion: the new element goes after every element the
comparator keeps before it. -/
def sInsertBy (le : α → α → Bool) (x : α) : List α → List α
  | [] => [x]
  | y :: t => if le y x then y :: sInsertBy le x t else x :: y :: t

/-- Stable sort by repeated insertion, each later element inserted after
equal-ranked earlier ones.  JavaScript `Array.prototype.sort` is required
to be stable, and the score comparators used here induce total preorders,
so this is extensionally the sort the source performs. -/
def stableSortBy (le : α → α → Bool) (l : List α) : List α :=
  l.foldl (fun acc x => sInsertBy le x acc) []

/-- `SkillProfile` without its presentational `analyzedAt` timestamp;
strengths and weaknesses keep the category instead of its display
string. -/
structure SkillProfile where
  overallScore : ℤ
  overallLevel : SkillLevel
  categoryScores : List SkillScore
  strengths : List SkillCategory
  weaknesses : List SkillCategory

/-- `buildSkillProfile`: rounded mean of the scores, strengths = top two
of the descending stable sort, weaknesses = bottom two (`slice(-2)`). -/
def buildSkillProfile (categoryScores : List SkillScore) : SkillProfile :=
  { overallScore := jsRound
      (((categoryScores.foldl (fun s x => s + x.score) 0 : ℤ) : ℚ)
        / (categoryScores.length : ℚ))
    overallLevel := scoreToLevel (jsRound
      (((categoryScores.foldl (fun s x => s + x.score) 0 : ℤ) : ℚ)
        / (categoryScores.length : ℚ)))
    categoryScores := categoryScores
    strengths :=
      ((stableSortBy (fun a b => b.score ≤ a.score) categoryScores).take 2).map
        (fun s => s.category)
    weaknesses :=
      (((stableSortBy (fun a b => b.score ≤ a.score) categoryScores).drop
        ((stableSortBy (fun a b => b.score ≤ a.score) categoryScores).length - 2))).map
        (fun s => s.category) }

/-- Recommendation priority. -/
inductive Priority where
  | high | medium | low
deriving DecidableEq

/-- `Recommendation` restricted to category and priority; the fixed
issue/suggestion texts and learning-resource links are presentational
constants the control flow never reads. -/
structure Recommendation where
  category : SkillCategory
  priority : Priority
deriving DecidableEq

/-- The body of the `forEach` in `generateRecommendations`: skip scores of
70 or more, give priority by sorted index (0 = high, 1 = medium, rest =
low), and additionally gate the coding-proficiency recommendation on
`typingToTotalRatio < 0.5`. -/
def emitRec (m : BehavioralMetrics) (sd : SkillScore) (idx : ℕ) : Option Recommendation :=
  if 70 ≤ sd.score then none
  else
    let p := if idx = 0 then Priority.high
             else if idx = 1 then Priority.medium
             else Priority.low
    match sd.category with
    | SkillCategory.codingProficiency =>
        if m.typingToTotalRatio < 1/2 then some ⟨sd.category, p⟩ else none
    | _ => some ⟨sd.category, p⟩

/-- The indexed `forEach` over the sorted scores, collecting pushes. -/
def emitAll (m : BehavioralMetrics) : List SkillScore → ℕ → List Recommendation
  | [], _ => []
  | sd :: t, i => (emitRec m sd i).toList ++ emitAll m t (i + 1)

/-- `generateRecommendations(categoryScores, metrics)`: ascending stable
sort by score, then the indexed emission pass. -/
def generateRecommendations (categoryScores : List SkillScore)
    (m : BehavioralMetrics) : List Recommendation :=
  emitAll m (stableSortBy (fun a b => a.score ≤ b.score) categoryScores) 0

/-- Number of high-priority recommendations in a list. -/
def countHigh (l : List Recommendation) : ℕ :=
  l.countP (fun r => r.priority = Priority.high)

/-- The last element among those attaining the maximal value of `f`
(the specification-level description of the tie-breaking the code
performs). -/
def lastArgmax (f : α → ℕ) (dflt : α) (l : List α) : α :=
  (l.filter (fun x => f x = (l.map f).foldr max 0)).getLastD dflt

/-!
## Feature extractor orchestrator (`CodeFeatureExtractor.extract`)

Every division of the source is rendered with the `Option`-valued `jdiv`,
so that an unguarded division by zero would surface as `none`; the outer
`extract` is `some` exactly when no guard is violated.  The per-language
function/class/import regex tables enter the computation only through
per-line boolean tests (`patterns.some(p => p.test(line))`), so they are
taken as parameters of type `List (List Char → Bool)`; the language name
itself is a parameter because `LanguageDetector.detectLanguage` (a file
extension table) is an external collaborator of this core.
-/

/-- Substring test on strings (JavaScript `String.prototype.includes`). -/
def containsStr (s pat : String) : Bool := containsSub pat.toList s.toList

/-- `CodeFeatureExtractor.getLanguageKey`. -/
def getLanguageKey (language : String) : String :=
  let langLower := language.toLower
  if containsStr langLower "python" then "python"
  else if containsStr langLower "java" ∧ ¬ containsStr langLower "javascript" then "java"
  else if containsStr langLower "c#" then "csharp"
  else if containsStr langLower "go" then "go"
  else if containsStr langLower "rust" then "rust"
  else if containsStr langLower "ruby" then "ruby"
  else if containsStr langLower "html" then "html"
  else if containsStr langLower "css" ∨ containsStr langLower "scss" ∨
    containsStr langLower "sass" then "css"
  else if containsStr langLower "shell" ∨ containsStr langLower "bash" then "shell"
  else "default"

/-- Indentation style classification. -/
inductive IndentStyle where
  | spaces | tabs | mixed
deriving DecidableEq

/-- Result of `extractStructuralMetrics`. -/
structure StructuralMetrics where
  averageLineLength : ℚ
  maxLineLength : ℕ
  indentationConsistency : ℚ
  indentationStyle : IndentStyle
  indentationSize : ℕ

/-- The leading whitespace of a line (the `^(\s+)` match group). -/
def leadingWs (l : List Char) : List Char := l.takeWhile Char.isWhitespace

/-- The regex `^\s+` as a test: the first character is whitespace. -/
def startsWithWs : List Char → Bool
  | [] => false
  | c :: _ => c.isWhitespace

/-- `extractStructuralMetrics`: line lengths and indentation analysis. -/
def extractStructuralMetrics (lines : List (List Char)) : Option StructuralMetrics :=
  let lineLengths := lines.map List.length
  let maxLength := lineLengths.foldr max 0
  let indentedLines := lines.filter (fun l => 0 < l.length && startsWithWs l)
  let counts := indentedLines.foldl
    (fun (acc : ℕ × ℕ × List ℕ) line =>
      let (tabCount, spaceCount, indentSizes) := acc
      let indent := leadingWs line
      if indent.length = 0 then acc
      else if '\t' ∈ indent then (tabCount + 1, spaceCount, indentSizes)
      else (tabCount, spaceCount + 1, indentSizes ++ [indent.length]))
    (0, 0, [])
  let tabCount := counts.1
  let spaceCount := counts.2.1
  let indentSizes := counts.2.2
  let indentationStyle :=
    if 0 < tabCount ∧ 0 < spaceCount then IndentStyle.mixed
    else if spaceCount < tabCount then IndentStyle.tabs
    else IndentStyle.spaces
  let indentationSize :=
    if 0 < indentSizes.length then
      -- `Math.min(...empty)` is Infinity, which passes the `> 0` check and
      -- is then capped at 8; a present minimum is positive by construction.
      match (indentSizes.filter (fun s => 0 < s)).min? with
      | none => 8
      | some minIndent => if 0 < minIndent then min minIndent 8 else 2
    else 2
  let consistentIndents :=
    (indentSizes.filter (fun s => s % indentationSize = 0)).length
  (if 0 < lineLengths.length then
      jdiv (lineLengths.sum : ℚ) (lineLengths.length : ℚ)
    else some 0).bind fun avgLength =>
  (if 0 < indentSizes.length then
      jdiv (consistentIndents : ℚ) (indentSizes.length : ℚ)
    else some 1).bind fun indentationConsistency =>
  some { averageLineLength := round2 avgLength
         maxLineLength := maxLength
         indentationConsistency := round2 indentationConsistency
         indentationStyle := indentationStyle
         indentationSize := indentationSize }

/-- Result of `extractCommentMetrics`. -/
structure CommentMetrics where
  commentDensity : ℚ
  blockCommentCount : ℕ
  inlineCommentCount : ℕ
  docstringCount : ℕ

/-- `extractCommentMetrics`: block/inline/docstring counts and density
relative to the code-line count. -/
def extractCommentMetrics (lines : List (List Char)) (langKey : String)
    (codeLines : ℤ) : Option CommentMetrics :=
  let pats := COMMENT_PATTERNS langKey
  let counts := lines.foldl
    (fun (acc : ℕ × ℕ × ℕ × Bool) line =>
      let (blockC, inlineC, docC, inB) := acc
      let t := trimChars line
      if inB then (blockC, inlineC, docC, !pats.blockEnd t)
      else if (match pats.docstring with
               | some p => p t
               | none => false) then (blockC, inlineC, docC + 1, inB)
      else if pats.blockStart t then
        (blockC + 1, inlineC, docC, !pats.blockEnd (pats.stripBlockStart t))
      else if pats.singleLine.any (fun p => p t) then
        (blockC, inlineC + 1, docC, inB)
      else (blockC, inlineC, docC, inB))
    (0, 0, 0, false)
  let totalComments := counts.1 + counts.2.1 + counts.2.2.1
  (if 0 < codeLines then jdiv (totalComments : ℚ) (codeLines : ℚ)
    else some 0).bind fun commentDensity =>
  some { commentDensity := round2 commentDensity
         blockCommentCount := counts.1
         inlineCommentCount := counts.2.1
         docstringCount := counts.2.2.1 }

/-- `extractCodeStructure`: per-line function/class/import counts (one per
category per line when any pattern of that category matches). -/
def extractCodeStructure (lines : List (List Char))
    (fnPats clsPats impPats : List (List Char → Bool)) : ℕ × ℕ × ℕ :=
  lines.foldl
    (fun (acc : ℕ × ℕ × ℕ) line =>
      let (functionCount, classCount, importCount) := acc
      let functionCount :=
        if fnPats.any (fun p => p line) then functionCount + 1 else functionCount
      let classCount :=
        if clsPats.any (fun p => p line) then classCount + 1 else classCount
      let importCount :=
        if impPats.any (fun p => p line) then importCount + 1 else importCount
      (functionCount, classCount, importCount))
    (0, 0, 0)

/-- Result of `extractNamingMetrics`. -/
structure NamingMetrics where
  averageVariableNameLength : ℚ
  camelCaseRatio : ℚ
  snake_caseRatio : ℚ
  singleCharVarCount : ℕ

/-- Maximal word-character runs of the text (the candidate matches of the
identifier regex; a run must then start with a letter or underscore). -/
def wordRunsAux : List Char → List Char → List (List Char)
  | [], acc => if acc.isEmpty then [] else [acc.reverse]
  | c :: rest, acc =>
      if isWordChar c then wordRunsAux rest (c :: acc)
      else if acc.isEmpty then wordRunsAux rest []
      else acc.reverse :: wordRunsAux rest []

/-- All maximal word-character runs. -/
def wordRuns (l : List Char) : List (List Char) := wordRunsAux l []

/-- The run is accepted by `\b([a-zA-Z_][a-zA-Z0-9_]*)\b`: it starts with
a letter or underscore (runs starting with a digit are skipped whole). -/
def identStartOk : List Char → Bool
  | [] => false
  | c :: _ => c.isAlpha || c = '_'

/-- The fixed cross-language keyword list of `isKeyword` (source order,
including its duplicated `let`). -/
def commonKeywords : List String :=
  ["if", "else", "for", "while", "do", "switch", "case", "break", "continue",
   "return", "function", "class", "const", "let", "var", "import", "export",
   "from", "try", "catch", "finally", "throw", "new", "this", "super",
   "public", "private", "protected", "static", "void", "int", "string",
   "boolean", "true", "false", "null", "undefined", "async", "await",
   "def", "self", "None", "True", "False", "and", "or", "not", "in",
   "fn", "let", "mut", "pub", "impl", "struct", "enum", "trait",
   "func", "package", "type", "interface", "map", "range", "defer"]

/-- `isKeyword(word, langKey)` (the language key is accepted but not
consulted, as in the source). -/
def isKeyword (word : String) (langKey : String) : Bool :=
  commonKeywords.contains word.toLower || commonKeywords.contains word

/-- A lowercase letter immediately followed by an uppercase letter
(the camelCase test `[a-z][A-Z]`). -/
def hasLowerUpper : List Char → Bool
  | a :: b :: t => (a.isLower && b.isUpper) || hasLowerUpper (b :: t)
  | _ => false

/-- A lowercase letter, underscore, lowercase letter
(the snake_case test `[a-z]_[a-z]`). -/
def hasSnake : List Char → Bool
  | a :: b :: c :: t => (a.isLower && b = '_' && c.isLower) || hasSnake (b :: c :: t)
  | _ => false

/-- `extractNamingMetrics`: identifier statistics over the raw text. -/
def extractNamingMetrics (code : List Char) (langKey : String) : Option NamingMetrics :=
  let identifiers := (wordRuns code).filter
    (fun r => identStartOk r && 1 < r.length && !(isKeyword (String.mk r) langKey))
  if identifiers.isEmpty then
    some { averageVariableNameLength := 0
           camelCaseRatio := 0
           snake_caseRatio := 0
           singleCharVarCount := 0 }
  else
    let totalLength := (identifiers.map List.length).sum
    let singleCharCount := ((wordRuns code).filter
      (fun r => r.length = 1 && identStartOk r &&
        (match r with
         | [c] => c.isAlpha && !(isKeyword (String.mk [c]) langKey)
         | _ => false))).length
    let camelCaseCount := (identifiers.filter hasLowerUpper).length
    let snakeCaseCount := (identifiers.filter hasSnake).length
    (jdiv (totalLength : ℚ) (identifiers.length : ℚ)).bind fun avgLength =>
    (jdiv (camelCaseCount : ℚ) (identifiers.length : ℚ)).bind fun camelRatio =>
    (jdiv (snakeCaseCount : ℚ) (identifiers.length : ℚ)).bind fun snakeRatio =>
    some { averageVariableNameLength := round2 avgLength
           camelCaseRatio := round2 camelRatio
           snake_caseRatio := round2 snakeRatio
           singleCharVarCount := singleCharCount }

/-- Result of `extractQualityMetrics`. -/
structure QualityMetrics where
  duplicateLineRatio : ℚ
  longLineRatio : ℚ
  emptyBlockCount : ℕ

/-- Occurrence counting for normalized lines (JavaScript object used as a
counter, keys in insertion order). -/
def bumpCount [DecidableEq α] : List (α × ℕ) → α → List (α × ℕ)
  | [], k => [(k, 1)]
  | (a, n) :: t, k =>
      if a = k then (a, n + 1) :: t else (a, n) :: bumpCount t k

/-- Count of matches of `\{\s*\}` (an opening brace, whitespace, a closing
brace), scanning left to right and resuming after each match.  The fuel
argument (instantiated with the list length) makes the skip structural. -/
def countEmptyBracesAux : ℕ → List Char → ℕ
  | 0, _ => 0
  | _ + 1, [] => 0
  | fuel + 1, c :: rest =>
      if c = '\x7b' then
        match rest.dropWhile Char.isWhitespace with
        | '\x7d' :: rest2 => 1 + countEmptyBracesAux fuel rest2
        | _ => countEmptyBracesAux fuel rest
      else countEmptyBracesAux fuel rest

/-- Count of `\{\s*\}` matches. -/
def countEmptyBraces (l : List Char) : ℕ := countEmptyBracesAux l.length l

/-- `extractQualityMetrics`: duplicate-line ratio, long-line ratio and
empty-block count.  A `^\s*pass\s*$` match (multiline flag) corresponds to
a line whose trimmed text is exactly `pass`. -/
def extractQualityMetrics (lines : List (List Char)) : Option QualityMetrics :=
  let normalizedLines := (lines.map trimChars).filter (fun l => 0 < l.length)
  let lineCount := normalizedLines.foldl bumpCount []
  let duplicateCount : ℕ :=
    (lineCount.map (fun e => if 1 < e.2 then e.2 - 1 else 0)).sum
  let longLines := (lines.filter (fun l => 100 < l.length)).length
  let fullCode := List.intercalate ['\n'] lines
  let passCount :=
    ((lines.map trimChars).filter (fun l => l = "pass".toList)).length
  let emptyBlockCount := countEmptyBraces fullCode + passCount
  (if 0 < normalizedLines.length then
      jdiv (duplicateCount : ℚ) (normalizedLines.length : ℚ)
    else some 0).bind fun duplicateLineRatio =>
  (if 0 < lines.length then
      jdiv (longLines : ℚ) (lines.length : ℚ)
    else some 0).bind fun longLineRatio =>
  some { duplicateLineRatio := round2 duplicateLineRatio
         longLineRatio := round2 longLineRatio
         emptyBlockCount := emptyBlockCount }

/-- Result of `extractTemporalMetrics`. -/
structure TemporalMetrics where
  typingSpeed : ℚ
  editFrequency : ℚ
  pasteRatio : ℚ

/-- `extractTemporalMetrics`: typing speed, edit frequency and paste ratio
from the optional tracking counters, all 0 when counters are absent. -/
def extractTemporalMetrics (trackingMetrics : Option FileMetrics) :
    Option TemporalMetrics :=
  match trackingMetrics with
  | none => some { typingSpeed := 0, editFrequency := 0, pasteRatio := 0 }
  | some t =>
      let activeTimeSeconds : ℚ := (t.activeTimeMs : ℚ) / 1000
      let activeTimeMinutes : ℚ := (t.activeTimeMs : ℚ) / 60000
      let totalInputs := t.keystrokeCount + t.pasteCount
      (if 0 < activeTimeSeconds then
          jdiv (t.keystrokeCount : ℚ) activeTimeSeconds
        else some 0).bind fun typingSpeed =>
      (if 0 < activeTimeMinutes then
          jdiv (t.editCount : ℚ) activeTimeMinutes
        else some 0).bind fun editFrequency =>
      (if 0 < totalInputs then
          jdiv (t.pasteCount : ℚ) (totalInputs : ℚ)
        else some 0).bind fun pasteRatio =>
      some { typingSpeed := round2 typingSpeed
             editFrequency := round2 editFrequency
             pasteRatio := round2 pasteRatio }

/-- The privacy-safe feature record (`CodeFeatures`), without the
externally stamped `fileExtension` and `extractionTimestamp`. -/
structure CodeFeatures where
  totalLines : ℕ
  codeLines : ℤ
  commentLines : ℕ
  blankLines : ℕ
  averageLineLength : ℚ
  maxLineLength : ℕ
  indentationConsistency : ℚ
  indentationStyle : IndentStyle
  indentationSize : ℕ
  commentDensity : ℚ
  blockCommentCount : ℕ
  inlineCommentCount : ℕ
  docstringCount : ℕ
  functionCount : ℕ
  classCount : ℕ
  importCount : ℕ
  cyclomaticComplexity : ℕ
  nestingDepth : ℤ
  averageVariableNameLength : ℚ
  camelCaseRatio : ℚ
  snake_caseRatio : ℚ
  singleCharVarCount : ℕ
  duplicateLineRatio : ℚ
  longLineRatio : ℚ
  emptyBlockCount : ℕ
  typingSpeed : ℚ
  editFrequency : ℚ
  pasteRatio : ℚ
  language : String
  extractionVersion : String

/-- The fixed extraction-version identifier. -/
def EXTRACTION_VERSION : String := "1.0.0"

/-- `CodeFeatureExtractor.extract(code, filePath, trackingMetrics)`, with
the detected language name and the structural pattern tables passed in
(their derivation from the file path is external to this core). -/
def extract (code : List Char) (language : String)
    (fnPats clsPats impPats : List (List Char → Bool))
    (trackingMetrics : Option FileMetrics) : Option CodeFeatures :=
  let lines := splitOnNl code
  let langKey := getLanguageKey language
  let basicMetrics := extractBasicMetrics lines langKey
  (extractStructuralMetrics lines).bind fun structuralMetrics =>
  (extractCommentMetrics lines langKey basicMetrics.codeLines).bind fun commentMetrics =>
  let codeStructure := extractCodeStructure lines fnPats clsPats impPats
  let complexityMetrics := extractComplexityMetrics lines
  (extractNamingMetrics code langKey).bind fun namingMetrics =>
  (extractQualityMetrics lines).bind fun qualityMetrics =>
  (extractTemporalMetrics trackingMetrics).bind fun temporalMetrics =>
  some { totalLines := basicMetrics.totalLines
         codeLines := basicMetrics.codeLines
         commentLines := basicMetrics.commentLines
         blankLines := basicMetrics.blankLines
         averageLineLength := structuralMetrics.averageLineLength
         maxLineLength := structuralMetrics.maxLineLength
         indentationConsistency := structuralMetrics.indentationConsistency
         indentationStyle := structuralMetrics.indentationStyle
         indentationSize := structuralMetrics.indentationSize
         commentDensity := commentMetrics.commentDensity
         blockCommentCount := commentMetrics.blockCommentCount
         inlineCommentCount := commentMetrics.inlineCommentCount
         docstringCount := commentMetrics.docstringCount
         functionCount := codeStructure.1
         classCount := codeStructure.2.1
         importCount := codeStructure.2.2
         cyclomaticComplexity := complexityMetrics.1
         nestingDepth := complexityMetrics.2
         averageVariableNameLength := namingMetrics.averageVariableNameLength
         camelCaseRatio := namingMetrics.camelCaseRatio
         snake_caseRatio := namingMetrics.snake_caseRatio
         singleCharVarCount := namingMetrics.singleCharVarCount
         duplicateLineRatio := qualityMetrics.duplicateLineRatio
         longLineRatio := qualityMetrics.longLineRatio
         emptyBlockCount := qualityMetrics.emptyBlockCount
         typingSpeed := temporalMetrics.typingSpeed
         editFrequency := temporalMetrics.editFrequency
         pasteRatio := temporalMetrics.pasteRatio
         language := language
         extractionVersion := EXTRACTION_VERSION }

/-!
## Theorems for the paste/typing classifier (C1, C2, C7, C10)
-/

/-- The classifier as a propositional decision rule; used to reason about
the branch structure of `detectPaste`. -/
lemma detectPaste_eq_true_iff (c g l : ℤ) :
    detectPaste c g l = true ↔
      30 < c ∧ ((3 ≤ l ∧ g < 50) ∨ 300 < c ∨ (150 < c ∧ g < 20) ∨
        (100 < c ∧ g < 10) ∨ (50 < c ∧ g < 5)) := by
  unfold detectPaste
  split_ifs <;> simp_all

/-- C1: the classifier is the stated ordered rule list, and in particular
any delta with at most 30 added characters is typing regardless of gap and
lines, and any delta with more than 300 added characters is paste
regardless of gap. -/
theorem detectPaste_matches_spec_rules (c g l : ℤ) :
    detectPaste c g l = specPasteRule c g l ∧
    (c ≤ 30 → detectPaste c g l = false) ∧
    (300 < c → detectPaste c g l = true) := by
  refine ⟨rfl, ?_, ?_⟩
  · intro h
    simp [detectPaste, h]
  · intro h
    rw [detectPaste_eq_true_iff]
    omega

/-- Witness for C1 at concrete inputs: 10 added characters with an instant
5-line insertion is typing, and 400 added characters after a 10-second gap
is paste. -/
theorem detectPaste_matches_spec_rules_witness :
    detectPaste 10 0 5 = false ∧ detectPaste 400 10000 0 = true :=
  ⟨(detectPaste_matches_spec_rules 10 0 5).2.1 (by decide),
   (detectPaste_matches_spec_rules 400 10000 0).2.2 (by decide)⟩

/-- C2 counterexample: the claim says a delta with 120 added characters and
a 15 ms gap (no multi-line insertion) is classified as paste; the code
classifies it as typing (rule 4 requires more than 150 characters and rule
5 requires a gap below 10 ms). -/
theorem detectPaste_120_15_not_paste : detectPaste 120 15 0 ≠ true := by decide

/-- C2 amended: a delta with 120 added characters, a 15 ms gap and no
multi-line insertion is classified as typing (no paste rule matches). -/
theorem detectPaste_120_15_typing : detectPaste 120 15 0 = false := by decide

/-- C7: with the gap fixed at 0 ms and the inserted-line count fixed,
growing the added-character count can only turn typing into paste, never
paste back into typing. -/
theorem detectPaste_monotone_in_chars (l c₁ c₂ : ℤ) (hc : c₁ ≤ c₂)
    (h : detectPaste c₁ 0 l = true) : detectPaste c₂ 0 l = true := by
  rw [detectPaste_eq_true_iff] at h ⊢
  omega

/-- Witness for C7: 60 characters at gap 0 is already paste, so 70
characters at gap 0 is paste as well. -/
theorem detectPaste_monotone_in_chars_witness : detectPaste 70 0 0 = true :=
  detectPaste_monotone_in_chars 0 60 70 (by decide) (by decide)

/-- C10: classification is a function of the added-character count, the
gap and the added-line count only; two deltas that agree on those three
but differ arbitrarily in deleted characters and deleted lines are
classified identically. -/
theorem classifyDelta_ignores_deletions (d₁ d₂ : EditDelta) (gapMs : ℤ)
    (hc : d₁.charactersAdded = d₂.charactersAdded)
    (hl : d₁.linesAdded = d₂.linesAdded) :
    classifyDelta d₁ gapMs = classifyDelta d₂ gapMs := by
  unfold classifyDelta
  rw [hc, hl]

/-- Witness for C10: a 400-character insertion is classified the same
whether it deleted nothing or deleted 999 characters over 7 lines. -/
theorem classifyDelta_ignores_deletions_witness :
    classifyDelta ⟨400, 0, 0, 0⟩ 10 = classifyDelta ⟨400, 999, 0, 7⟩ 10 :=
  classifyDelta_ignores_deletions ⟨400, 0, 0, 0⟩ ⟨400, 999, 0, 7⟩ 10 rfl rfl

/-!
## Theorems for the complexity extractor (C3) and line classification (C6)
-/

/-- C3: on the single-line input `x = 1`, which contains none of the
listed keywords or operators, the code reports cyclomatic complexity 13
instead of the 1 the claim requires: the compiled regexes for `||` and
`??` escape only their first character and therefore match the empty
string at every position, adding `length + 1` per token per line. -/
theorem extractComplexityMetrics_empty_match_bug :
    (extractComplexityMetrics [("x = 1".toList)]).1 = 13 ∧
    specCyclomaticComplexity [("x = 1".toList)] = 1 := by decide

/-- Each loop step increments blank + comment by at most one, for any
pattern set. -/
lemma basicLoop_counts_le (pats : CommentPatterns) :
    ∀ (lines : List (List Char)) (acc : ℕ × ℕ × Bool),
      (basicLoop pats acc lines).1 + (basicLoop pats acc lines).2.1 ≤
        acc.1 + acc.2.1 + lines.length := by
  intro lines
  induction lines with
  | nil => intro acc; simp [basicLoop]
  | cons line rest ih =>
      intro acc
      obtain ⟨b, cm, inB⟩ := acc
      show (basicLoop pats _ (line :: rest)).1 + _ ≤ _
      rw [basicLoop, List.foldl_cons]
      dsimp only
      split_ifs <;>
        · refine le_trans (ih _) ?_
          simp <;> omega

/-- The partition invariant for any line list. -/
lemma extractBasicMetrics_partition_aux (lines : List (List Char)) (langKey : String) :
    (extractBasicMetrics lines langKey).codeLines
        + ((extractBasicMetrics lines langKey).commentLines : ℤ)
        + ((extractBasicMetrics lines langKey).blankLines : ℤ)
      = ((extractBasicMetrics lines langKey).totalLines : ℤ) ∧
    0 ≤ (extractBasicMetrics lines langKey).codeLines ∧
    (extractBasicMetrics lines langKey).codeLines
      = ((extractBasicMetrics lines langKey).totalLines : ℤ)
        - (extractBasicMetrics lines langKey).blankLines
        - (extractBasicMetrics lines langKey).commentLines := by
  have hle := basicLoop_counts_le (COMMENT_PATTERNS langKey) lines (0, 0, false)
  simp only [extractBasicMetrics]
  generalize hB : basicLoop (COMMENT_PATTERNS langKey) (0, 0, false) lines = p at *
  obtain ⟨b, cm, inB⟩ := p
  simp only at hle ⊢
  have hx : (0:ℤ) ≤ (lines.length : ℤ) - b - cm := by omega
  rw [max_eq_right hx]
  refine ⟨by omega, by omega, by omega⟩

/-- C6: for every input text and language tag, the line classification
partitions the lines: `codeLines + commentLines + blankLines = totalLines`,
`codeLines` is never negative, and the `max(0, ...)` clamp on `codeLines`
is never the binding constraint. -/
theorem extractBasicMetrics_partition (text langKey : String) :
    (extractBasicMetrics (splitOnNl text.toList) langKey).codeLines
        + ((extractBasicMetrics (splitOnNl text.toList) langKey).commentLines : ℤ)
        + ((extractBasicMetrics (splitOnNl text.toList) langKey).blankLines : ℤ)
      = ((extractBasicMetrics (splitOnNl text.toList) langKey).totalLines : ℤ) ∧
    0 ≤ (extractBasicMetrics (splitOnNl text.toList) langKey).codeLines ∧
    (extractBasicMetrics (splitOnNl text.toList) langKey).codeLines
      = ((extractBasicMetrics (splitOnNl text.toList) langKey).totalLines : ℤ)
        - (extractBasicMetrics (splitOnNl text.toList) langKey).blankLines
        - (extractBasicMetrics (splitOnNl text.toList) langKey).commentLines :=
  extractBasicMetrics_partition_aux (splitOnNl text.toList) langKey

/-!
## Theorems for the primary-language selection (C4)
-/

/-- Inserting a key increments its count and leaves the others. -/
lemma distLookup_insertCount (d : List (String × ℕ)) (j k : String) :
    distLookup (insertCount d j) k =
      distLookup d k + (if j = k then 1 else 0) := by
  induction d with
  | nil =>
      by_cases hjk : j = k <;> simp [insertCount, distLookup, hjk]
  | cons e t ih =>
      obtain ⟨a, n⟩ := e
      by_cases haj : a = j
      · subst haj
        by_cases hak : a = k <;> simp [insertCount, distLookup, hak]
      · by_cases hak : a = k
        · subst hak
          have hjk : ¬ j = a := fun h => haj h.symm
          simp [insertCount, distLookup, haj, hjk]
        · simp [insertCount, distLookup, haj, hak, ih]

/-- The language counters record exactly the per-language file counts. -/
lemma distLookup_foldl (files : List FileMetrics) :
    ∀ (d : List (String × ℕ)) (k : String),
      distLookup (files.foldl (fun d f => insertCount d f.language) d) k =
        distLookup d k + (files.map FileMetrics.language).count k := by
  induction files with
  | nil => intro d k; simp [List.count]
  | cons f t ih =>
      intro d k
      rw [List.foldl_cons]
      rw [ih (insertCount d f.language) k]
      rw [distLookup_insertCount]
      by_cases h : f.language = k <;>
        simp [List.count_cons, h, Nat.add_assoc, Nat.add_comm]

/-- `distLookup (buildDist files)` is the file count per language. -/
lemma distLookup_buildDist (files : List FileMetrics) (k : String) :
    distLookup (buildDist files) k = (files.map FileMetrics.language).count k := by
  have := distLookup_foldl files [] k
  simpa [buildDist, distLookup] using this

/-- Insertion never empties the counter list. -/
lemma insertCount_ne_nil (d : List (String × ℕ)) (k : String) :
    insertCount d k ≠ [] := by
  cases d with
  | nil => simp [insertCount]
  | cons e t =>
      obtain ⟨a, n⟩ := e
      by_cases h : a = k <;> simp [insertCount, h]

/-- Folding insertions preserves nonemptiness. -/
lemma foldl_insertCount_ne_nil (files : List FileMetrics) :
    ∀ d : List (String × ℕ), d ≠ [] →
      files.foldl (fun d f => insertCount d f.language) d ≠ [] := by
  induction files with
  | nil => intro d hd; simpa using hd
  | cons f t ih =>
      intro d hd
      rw [List.foldl_cons]
      exact ih _ (insertCount_ne_nil d f.language)

/-- A nonempty file list yields a nonempty language list. -/
lemma distLanguages_ne_nil (files : List FileMetrics) (h : files ≠ []) :
    distLanguages files ≠ [] := by
  cases files with
  | nil => exact absurd rfl h
  | cons f t =>
      have : buildDist (f :: t) ≠ [] := by
        unfold buildDist
        rw [List.foldl_cons]
        exact foldl_insertCount_ne_nil t _ (insertCount_ne_nil [] f.language)
      simpa [distLanguages] using this

/-- Appending an initial value to a fold of `max`. -/
lemma foldr_max_init (s : List ℕ) (b : ℕ) :
    s.foldr max b = max (s.foldr max 0) b := by
  induction s with
  | nil => simp
  | cons x t ih => simp [List.foldr_cons, ih]; omega

/-- Replacing the first two elements by the comparator winner preserves
the last-maximum element. -/
lemma lastArgmax_step (f : α → ℕ) (d a b : α) (t : List α) :
    lastArgmax f d ((if f a > f b then a else b) :: t) =
      lastArgmax f d (a :: b :: t) := by
  by_cases hab : f a > f b
  · rw [if_pos hab]
    unfold lastArgmax
    have hM : max (f a) (max (f b) ((t.map f).foldr max 0)) =
        max (f a) ((t.map f).foldr max 0) := by omega
    simp only [List.map_cons, List.foldr_cons, hM]
    set M := max (f a) ((t.map f).foldr max 0) with hMdef
    have hb : ¬ (f b = M) := by omega
    simp [List.filter_cons, hb]
  · rw [if_neg hab]
    unfold lastArgmax
    have hM : max (f a) (max (f b) ((t.map f).foldr max 0)) =
        max (f b) ((t.map f).foldr max 0) := by omega
    simp only [List.map_cons, List.foldr_cons, hM]
    set M := max (f b) ((t.map f).foldr max 0) with hMdef
    by_cases ha : f a = M
    · have hb : f b = M := by omega
      have h1 : List.filter (fun x => f x = M) (a :: b :: t) =
          a :: b :: List.filter (fun x => f x = M) t := by
        simp [List.filter_cons, ha, hb]
      have h2 : List.filter (fun x => f x = M) (b :: t) =
          b :: List.filter (fun x => f x = M) t := by
        simp [List.filter_cons, hb]
      rw [h1, h2, List.getLastD_cons, List.getLastD_cons, List.getLastD_cons]
    · simp [List.filter_cons, ha]

/-- The left fold with the strict comparator picks the last element
attaining the maximum of `f` over the initial value and the list. -/
lemma foldl_pick_lastArgmax (f : α → ℕ) (d : α) :
    ∀ (l : List α) (a : α),
      l.foldl (fun x y => if f x > f y then x else y) a =
        lastArgmax f d (a :: l) := by
  intro l
  induction l with
  | nil =>
      intro a
      simp [lastArgmax, List.filter_cons]
  | cons b t ih =>
      intro a
      rw [List.foldl_cons]
      rw [ih (if f a > f b then a else b)]
      exact lastArgmax_step f d a b t

/-- C4 counterexample: two files, one TypeScript then one Python, tie at
one file each; the claim requires the first-encountered language
(`typescript`), but the code returns `python`. -/
theorem primaryLanguage_tie_counterexample :
    distLookup (buildDist [mkFM "typescript", mkFM "python"]) "typescript" = 1 ∧
    distLookup (buildDist [mkFM "typescript", mkFM "python"]) "python" = 1 ∧
    primaryLanguage [mkFM "typescript", mkFM "python"] = "python" ∧
    primaryLanguage [mkFM "typescript", mkFM "python"] ≠ "typescript" := by
  refine ⟨by decide, by decide, by decide, by decide⟩

/-- C4 amended: for every nonempty file collection, `primaryLanguage` is
the LAST language (in first-encounter order) among those appearing in the
most files; ties are broken toward the latest-encountered tied language,
not the earliest. -/
theorem primaryLanguage_last_of_maxima (files : List FileMetrics) (h : files ≠ []) :
    primaryLanguage files =
      lastArgmax (fun lang => (files.map FileMetrics.language).count lang)
        "unknown" (distLanguages files) := by
  obtain ⟨x, xs, hL⟩ : ∃ x xs, distLanguages files = x :: xs := by
    cases hE : distLanguages files with
    | nil => exact absurd hE (distLanguages_ne_nil files h)
    | cons x xs => exact ⟨x, xs, rfl⟩
  unfold primaryLanguage
  simp only [hL, List.headD_cons]
  simp only [distLookup_buildDist]
  rw [List.foldl_cons, ite_self]
  exact foldl_pick_lastArgmax _ "unknown" xs x

/-- Witness for C4 amended: a single TypeScript file. -/
theorem primaryLanguage_last_of_maxima_witness :
    primaryLanguage [mkFM "typescript"] =
      lastArgmax (fun lang => ([mkFM "typescript"].map FileMetrics.language).count lang)
        "unknown" (distLanguages [mkFM "typescript"]) :=
  primaryLanguage_last_of_maxima [mkFM "typescript"] (by decide)

/-!
## Theorems for the skill scorer (C8)
-/

/-- `Math.round` of an integer is that integer. -/
lemma jsRound_intCast (n : ℤ) : jsRound (n : ℚ) = n := by
  unfold jsRound
  rw [Int.floor_eq_iff]
  constructor <;> [push_cast; push_cast] <;> linarith

/-- `Math.round` is monotone. -/
lemma jsRound_mono {a b : ℚ} (h : a ≤ b) : jsRound a ≤ jsRound b :=
  Int.floor_le_floor (by linarith)

/-- Values above an integer round to at least that integer. -/
lemma le_jsRound_of_le {n : ℤ} {q : ℚ} (h : (n : ℚ) ≤ q) : n ≤ jsRound q := by
  unfold jsRound
  exact Int.le_floor.mpr (by linarith)

/-- Nonnegative values round to nonnegative integers. -/
lemma jsRound_nonneg {q : ℚ} (h : 0 ≤ q) : 0 ≤ jsRound q :=
  le_jsRound_of_le (by exact_mod_cast h)

/-- Values at most an integer round to at most that integer. -/
lemma jsRound_le_of_le {q : ℚ} {n : ℤ} (h : q ≤ (n : ℚ)) : jsRound q ≤ n := by
  unfold jsRound
  have := Int.floor_lt.mpr (show q + 1/2 < ((n + 1 : ℤ) : ℚ) by push_cast; linarith)
  omega

/-- The aggregated typing ratio lies in [0, 1]. -/
lemma extractBehavioralMetrics_ratio_mem (files : List FileMetrics) (ta ti : ℕ) :
    0 ≤ (extractBehavioralMetrics files ta ti).typingToTotalRatio ∧
    (extractBehavioralMetrics files ta ti).typingToTotalRatio ≤ 1 := by
  simp only [extractBehavioralMetrics]
  split_ifs with h
  · have hpos : (0 : ℚ) <
        (((files.map fun f => f.keystrokeCount).sum +
          (files.map fun f => f.pasteCount).sum : ℕ) : ℚ) := by
      exact_mod_cast h
    constructor
    · positivity
    · rw [div_le_one hpos]
      exact_mod_cast Nat.le_add_right (files.map fun f => f.keystrokeCount).sum
        (files.map fun f => f.pasteCount).sum
  · norm_num

/-- The focus ratio lies in [0, 1]. -/
lemma extractBehavioralMetrics_focus_mem (files : List FileMetrics) (ta ti : ℕ) :
    0 ≤ (extractBehavioralMetrics files ta ti).focusRatio ∧
    (extractBehavioralMetrics files ta ti).focusRatio ≤ 1 := by
  simp only [extractBehavioralMetrics]
  split_ifs with h
  · have hpos : (0 : ℚ) < ((ta + ti : ℕ) : ℚ) := by exact_mod_cast h
    constructor
    · positivity
    · rw [div_le_one hpos]
      exact_mod_cast Nat.le_add_right ta ti
  · norm_num

/-- The backspace ratio is nonnegative. -/
lemma extractBehavioralMetrics_backspace_nonneg (files : List FileMetrics) (ta ti : ℕ) :
    0 ≤ (extractBehavioralMetrics files ta ti).backspaceRatio := by
  simp only [extractBehavioralMetrics]
  split_ifs with h
  · positivity
  · exact le_refl 0

/-- Edits per minute is never negative, for any metrics record. -/
lemma editsPerMinute_nonneg (m : BehavioralMetrics) : 0 ≤ editsPerMinute m := by
  unfold editsPerMinute activeMinutes
  split_ifs with h
  · positivity
  · exact le_refl 0

/-- C8: on every aggregated metrics record, all five category scores lie
in [0, 100]; the overall score is the half-up-rounded unweighted mean of
the five scores and lies between their minimum and maximum. -/
theorem skillScores_bounded (files : List FileMetrics) (ta ti : ℕ) :
    let m := extractBehavioralMetrics files ta ti
    (calculateCategoryScores m).map SkillScore.score =
      [codingScore m, problemSolvingScore m, focusScore m,
       qualityScore m, versatilityScore m] ∧
    (0 ≤ codingScore m ∧ codingScore m ≤ 100) ∧
    (0 ≤ problemSolvingScore m ∧ problemSolvingScore m ≤ 100) ∧
    (0 ≤ focusScore m ∧ focusScore m ≤ 100) ∧
    (0 ≤ qualityScore m ∧ qualityScore m ≤ 100) ∧
    (0 ≤ versatilityScore m ∧ versatilityScore m ≤ 100) ∧
    (buildSkillProfile (calculateCategoryScores m)).overallScore =
      jsRound (((codingScore m + problemSolvingScore m + focusScore m +
        qualityScore m + versatilityScore m : ℤ) : ℚ) / 5) ∧
    min (codingScore m) (min (problemSolvingScore m)
      (min (focusScore m) (min (qualityScore m) (versatilityScore m))))
        ≤ (buildSkillProfile (calculateCategoryScores m)).overallScore ∧
    (buildSkillProfile (calculateCategoryScores m)).overallScore ≤
      max (codingScore m) (max (problemSolvingScore m)
        (max (focusScore m) (max (qualityScore m) (versatilityScore m)))) := by
  intro m
  obtain ⟨hr0, hr1⟩ := extractBehavioralMetrics_ratio_mem files ta ti
  obtain ⟨hf0, hf1⟩ := extractBehavioralMetrics_focus_mem files ta ti
  have hb0 := extractBehavioralMetrics_backspace_nonneg files ta ti
  have he0 := editsPerMinute_nonneg m
  have hcod : 0 ≤ codingScore m ∧ codingScore m ≤ 100 := by
    constructor
    · exact jsRound_nonneg (by positivity)
    · exact jsRound_le_of_le (by push_cast; nlinarith)
  have hps : 0 ≤ problemSolvingScore m ∧ problemSolvingScore m ≤ 100 := by
    constructor
    · exact le_max_left 0 _
    · have : jsRound (100 - editsPerMinute m * 10) ≤ 100 :=
        jsRound_le_of_le (by push_cast; nlinarith)
      simp only [problemSolvingScore]
      omega
  have hfs : 0 ≤ focusScore m ∧ focusScore m ≤ 100 := by
    constructor
    · exact jsRound_nonneg (by positivity)
    · exact jsRound_le_of_le (by push_cast; nlinarith)
  have hq : 0 ≤ qualityScore m ∧ qualityScore m ≤ 100 := by
    constructor
    · exact le_max_left 0 _
    · have : jsRound ((1 - m.backspaceRatio) * 100) ≤ 100 :=
        jsRound_le_of_le (by push_cast; nlinarith)
      simp only [qualityScore]
      omega
  have hv : 0 ≤ versatilityScore m ∧ versatilityScore m ≤ 100 := by
    constructor
    · simp only [versatilityScore]
      positivity
    · exact min_le_left _ _
  have hov : (buildSkillProfile (calculateCategoryScores m)).overallScore =
      jsRound (((codingScore m + problemSolvingScore m + focusScore m +
        qualityScore m + versatilityScore m : ℤ) : ℚ) / 5) := by
    simp only [buildSkillProfile, calculateCategoryScores, List.foldl,
      List.length_cons, List.length_nil]
    congr 1
    push_cast
    ring
  refine ⟨by simp [calculateCategoryScores], hcod, hps, hfs, hq, hv, hov, ?_, ?_⟩
  · rw [hov]
    refine le_jsRound_of_le ?_
    rw [le_div_iff₀ (by norm_num : (0:ℚ) < 5)]
    have : min (codingScore m) (min (problemSolvingScore m)
        (min (focusScore m) (min (qualityScore m) (versatilityScore m)))) * 5 ≤
        codingScore m + problemSolvingScore m + focusScore m +
          qualityScore m + versatilityScore m := by omega
    push_cast
    exact_mod_cast this
  · rw [hov]
    refine jsRound_le_of_le ?_
    rw [div_le_iff₀ (by norm_num : (0:ℚ) < 5)]
    have : codingScore m + problemSolvingScore m + focusScore m +
          qualityScore m + versatilityScore m ≤
        max (codingScore m) (max (problemSolvingScore m)
          (max (focusScore m) (max (qualityScore m) (versatilityScore m)))) * 5 := by
      omega
    push_cast
    exact_mod_cast this

/-!
## Theorems for the recommendation generator (C5)
-/

/-- Stable insertion permutes to a cons. -/
lemma sInsertBy_perm (le : α → α → Bool) (x : α) :
    ∀ l : List α, List.Perm (sInsertBy le x l) (x :: l) := by
  intro l
  induction l with
  | nil => simp [sInsertBy]
  | cons y t ih =>
      unfold sInsertBy
      split_ifs
      · exact (ih.cons y).trans (List.Perm.swap x y t)
      · exact List.Perm.refl _

/-- The insertion fold permutes to the accumulator plus the input. -/
lemma foldl_sInsertBy_perm (le : α → α → Bool) :
    ∀ (l acc : List α),
      List.Perm (l.foldl (fun acc x => sInsertBy le x acc) acc) (acc ++ l) := by
  intro l
  induction l with
  | nil => intro acc; simp
  | cons x t ih =>
      intro acc
      rw [List.foldl_cons]
      refine (ih (sInsertBy le x acc)).trans ?_
      refine (List.Perm.append_right t (sInsertBy_perm le x acc)).trans ?_
      exact List.perm_middle.symm

/-- The stable sort is a permutation of its input. -/
lemma stableSortBy_perm (le : α → α → Bool) (l : List α) :
    List.Perm (stableSortBy le l) l := by
  simpa [stableSortBy] using foldl_sInsertBy_perm le l []

/-- Closed form of one emission step: nothing at 70 or above, nothing for
a gated coding-proficiency score, otherwise the category with the
index-ranked priority. -/
lemma emitRec_eq (m : BehavioralMetrics) (sd : SkillScore) (i : ℕ) :
    emitRec m sd i =
      if 70 ≤ sd.score then none
      else if sd.category = SkillCategory.codingProficiency ∧
          ¬ (m.typingToTotalRatio < 1/2) then none
      else some ⟨sd.category,
        if i = 0 then Priority.high
        else if i = 1 then Priority.medium else Priority.low⟩ := by
  obtain ⟨cat, sc, lv⟩ := sd
  unfold emitRec
  by_cases h70 : 70 ≤ sc
  · simp [h70]
  · rw [if_neg h70, if_neg h70]
    dsimp only
    cases cat with
    | codingProficiency =>
        by_cases hg : m.typingToTotalRatio < 1/2
        · rw [if_neg (show ¬ (SkillCategory.codingProficiency =
              SkillCategory.codingProficiency ∧
              ¬ (m.typingToTotalRatio < 1/2)) from fun hc => hc.2 hg)]
          rw [if_pos hg]
        · rw [if_pos (show SkillCategory.codingProficiency =
              SkillCategory.codingProficiency ∧
              ¬ (m.typingToTotalRatio < 1/2) from ⟨rfl, hg⟩)]
          rw [if_neg hg]
    | problemSolving =>
        rw [if_neg (show ¬ (SkillCategory.problemSolving =
            SkillCategory.codingProficiency ∧ ¬ (m.typingToTotalRatio < 1/2))
          from fun hc => SkillCategory.noConfusion hc.1)]
    | focusConsistency =>
        rw [if_neg (show ¬ (SkillCategory.focusConsistency =
            SkillCategory.codingProficiency ∧ ¬ (m.typingToTotalRatio < 1/2))
          from fun hc => SkillCategory.noConfusion hc.1)]
    | codeQuality =>
        rw [if_neg (show ¬ (SkillCategory.codeQuality =
            SkillCategory.codingProficiency ∧ ¬ (m.typingToTotalRatio < 1/2))
          from fun hc => SkillCategory.noConfusion hc.1)]
    | languageVersatility =>
        rw [if_neg (show ¬ (SkillCategory.languageVersatility =
            SkillCategory.codingProficiency ∧ ¬ (m.typingToTotalRatio < 1/2))
          from fun hc => SkillCategory.noConfusion hc.1)]

/-- A successful emission requires a score below 70 and keeps the
category. -/
lemma emitRec_some {m : BehavioralMetrics} {sd : SkillScore} {i : ℕ}
    {r : Recommendation} (h : emitRec m sd i = some r) :
    sd.score < 70 ∧ r.category = sd.category := by
  rw [emitRec_eq] at h
  by_cases h70 : 70 ≤ sd.score
  · rw [if_pos h70] at h
    exact absurd h (by simp)
  · rw [if_neg h70] at h
    by_cases hgate : sd.category = SkillCategory.codingProficiency ∧
        ¬ (m.typingToTotalRatio < 1/2)
    · rw [if_pos hgate] at h
      exact absurd h (by simp)
    · rw [if_neg hgate] at h
      have hX := Option.some.inj h
      exact ⟨lt_of_not_le h70, by rw [← hX]⟩

/-- An emission at a positive index is never high priority. -/
lemma emitRec_pos_not_high {m : BehavioralMetrics} {sd : SkillScore} {i : ℕ}
    {r : Recommendation} (h : emitRec m sd i = some r) (hi : 1 ≤ i) :
    r.priority ≠ Priority.high := by
  rw [emitRec_eq] at h
  by_cases h70 : 70 ≤ sd.score
  · rw [if_pos h70] at h
    exact absurd h (by simp)
  · rw [if_neg h70] at h
    by_cases hgate : sd.category = SkillCategory.codingProficiency ∧
        ¬ (m.typingToTotalRatio < 1/2)
    · rw [if_pos hgate] at h
      exact absurd h (by simp)
    · rw [if_neg hgate] at h
      have hX := Option.some.inj h
      rw [← hX]
      show ¬ (if i = 0 then Priority.high
        else if i = 1 then Priority.medium else Priority.low) = Priority.high
      rw [if_neg (by omega : ¬ i = 0)]
      split_ifs <;> decide

/-- An emission at index 0 is high priority. -/
lemma emitRec_zero_high {m : BehavioralMetrics} {sd : SkillScore}
    {r : Recommendation} (h : emitRec m sd 0 = some r) :
    r.priority = Priority.high := by
  rw [emitRec_eq] at h
  by_cases h70 : 70 ≤ sd.score
  · rw [if_pos h70] at h
    exact absurd h (by simp)
  · rw [if_neg h70] at h
    by_cases hgate : sd.category = SkillCategory.codingProficiency ∧
        ¬ (m.typingToTotalRatio < 1/2)
    · rw [if_pos hgate] at h
      exact absurd h (by simp)
    · rw [if_neg hgate] at h
      have hX := Option.some.inj h
      rw [← hX]
      rfl

/-- When the score is below 70 and the coding gate does not block, index 0
emits. -/
lemma emitRec_zero_emits {m : BehavioralMetrics} {sd : SkillScore}
    (h70 : sd.score < 70)
    (hg : sd.category ≠ SkillCategory.codingProficiency ∨
      m.typingToTotalRatio < 1/2) :
    ∃ r, emitRec m sd 0 = some r := by
  rw [emitRec_eq]
  rw [if_neg (not_le.mpr h70)]
  rw [if_neg ?_]
  · exact ⟨_, rfl⟩
  · rintro ⟨hcat, hnot⟩
    rcases hg with hg | hg
    · exact hg hcat
    · exact hnot hg

/-- The emission pass emits at most one recommendation per score. -/
lemma emitAll_length_le (m : BehavioralMetrics) :
    ∀ (l : List SkillScore) (i : ℕ), (emitAll m l i).length ≤ l.length := by
  intro l
  induction l with
  | nil => intro i; simp [emitAll]
  | cons sd t ih =>
      intro i
      rw [emitAll, List.length_append]
      have h1 : (emitRec m sd i).toList.length ≤ 1 := by
        cases emitRec m sd i <;> simp [Option.toList]
      have := ih (i + 1)
      simp only [List.length_cons]
      omega

/-- From index 1 on, no high-priority recommendation is emitted. -/
lemma emitAll_countHigh_pos (m : BehavioralMetrics) :
    ∀ (l : List SkillScore) (i : ℕ), 1 ≤ i →
      countHigh (emitAll m l i) = 0 := by
  intro l
  induction l with
  | nil => intro i hi; simp [emitAll, countHigh]
  | cons sd t ih =>
      intro i hi
      rw [emitAll, countHigh, List.countP_append]
      have h2 := ih (i + 1) (by omega)
      rw [countHigh] at h2
      have h1 : List.countP (fun r => decide (r.priority = Priority.high))
          (emitRec m sd i).toList = 0 := by
        cases hE : emitRec m sd i with
        | none => simp [Option.toList]
        | some r =>
            have := emitRec_pos_not_high hE hi
            simp [Option.toList, List.countP_cons, this]
      omega

/-- The whole pass emits at most one high-priority recommendation. -/
lemma emitAll_countHigh_le_one (m : BehavioralMetrics) (l : List SkillScore) :
    countHigh (emitAll m l 0) ≤ 1 := by
  cases l with
  | nil => simp [emitAll, countHigh]
  | cons sd t =>
      rw [emitAll, countHigh, List.countP_append]
      simp only [Nat.zero_add]
      have h2 := emitAll_countHigh_pos m t 1 (le_refl 1)
      rw [countHigh] at h2
      have h1 : List.countP (fun r => decide (r.priority = Priority.high))
          (emitRec m sd 0).toList ≤ 1 := by
        cases emitRec m sd 0 with
        | none => simp [Option.toList]
        | some r =>
            simp only [Option.toList, List.countP_cons, List.countP_nil]
            split_ifs <;> omega
      omega

/-- When the head of the sorted list emits, exactly one high-priority
recommendation is produced. -/
lemma emitAll_countHigh_eq_one (m : BehavioralMetrics) (sd : SkillScore)
    (t : List SkillScore) (h : ∃ r, emitRec m sd 0 = some r) :
    countHigh (emitAll m (sd :: t) 0) = 1 := by
  obtain ⟨r, hr⟩ := h
  rw [emitAll, countHigh, List.countP_append, hr]
  simp only [Nat.zero_add]
  have h2 := emitAll_countHigh_pos m t 1 (le_refl 1)
  rw [countHigh] at h2
  have h1 := emitRec_zero_high hr
  simp [Option.toList, List.countP_cons, h1, h2]

/-- Every emitted recommendation corresponds to a listed score below 70. -/
lemma emitAll_mem (m : BehavioralMetrics) :
    ∀ (l : List SkillScore) (i : ℕ) (r : Recommendation),
      r ∈ emitAll m l i →
      ∃ sd ∈ l, sd.score < 70 ∧ r.category = sd.category := by
  intro l
  induction l with
  | nil => intro i r hr; simp [emitAll] at hr
  | cons sd t ih =>
      intro i r hr
      rw [emitAll, List.mem_append] at hr
      rcases hr with hr | hr
      · cases hE : emitRec m sd i with
        | none => rw [hE] at hr; simp [Option.toList] at hr
        | some r' =>
            rw [hE] at hr
            simp only [Option.toList, List.mem_singleton] at hr
            subst hr
            obtain ⟨h70, hcat⟩ := emitRec_some hE
            exact ⟨sd, List.mem_cons_self sd t, h70, hcat⟩
      · obtain ⟨sd', hsd', h70, hcat⟩ := ih (i + 1) r hr
        exact ⟨sd', List.mem_cons_of_mem sd hsd', h70, hcat⟩

/-- C5 amended: the generator emits no recommendation for a category
scoring 70 or more and at most 5 recommendations per call; it emits at
most one high-priority recommendation, and exactly one whenever the
lowest-scoring category (stable ascending order, ties to the earlier
category) scores below 70 and either is not coding proficiency or has
`typingToTotalRatio < 0.5`.  (The unconditional claim fails: when the
lowest-scoring category is coding proficiency with a typing ratio of at
least 0.5, its recommendation is suppressed and no high-priority
recommendation exists at all.) -/
theorem generateRecommendations_amended (m : BehavioralMetrics) :
    (∀ r ∈ generateRecommendations (calculateCategoryScores m) m,
       ∃ sd ∈ calculateCategoryScores m, sd.score < 70 ∧ r.category = sd.category) ∧
    (generateRecommendations (calculateCategoryScores m) m).length ≤ 5 ∧
    countHigh (generateRecommendations (calculateCategoryScores m) m) ≤ 1 ∧
    (∀ h0 : SkillScore,
       (stableSortBy (fun a b => a.score ≤ b.score)
         (calculateCategoryScores m)).head? = some h0 →
       h0.score < 70 →
       (h0.category ≠ SkillCategory.codingProficiency ∨
         m.typingToTotalRatio < 1/2) →
       countHigh (generateRecommendations (calculateCategoryScores m) m) = 1) := by
  have hperm := stableSortBy_perm (fun a b : SkillScore => a.score ≤ b.score)
    (calculateCategoryScores m)
  refine ⟨?_, ?_, ?_, ?_⟩
  · intro r hr
    obtain ⟨sd, hsd, h70, hcat⟩ := emitAll_mem m _ 0 r hr
    exact ⟨sd, hperm.subset hsd, h70, hcat⟩
  · have h1 := emitAll_length_le m
      (stableSortBy (fun a b : SkillScore => a.score ≤ b.score)
        (calculateCategoryScores m)) 0
    have h2 : (stableSortBy (fun a b : SkillScore => a.score ≤ b.score)
        (calculateCategoryScores m)).length = 5 := by
      rw [hperm.length_eq]
      simp [calculateCategoryScores]
    rw [generateRecommendations]
    omega
  · exact emitAll_countHigh_le_one m _
  · intro h0 hhead h70 hg
    obtain ⟨t, ht⟩ : ∃ t, stableSortBy (fun a b : SkillScore => a.score ≤ b.score)
        (calculateCategoryScores m) = h0 :: t := by
      cases hE : stableSortBy (fun a b : SkillScore => a.score ≤ b.score)
          (calculateCategoryScores m) with
      | nil => rw [hE] at hhead; simp at hhead
      | cons a t =>
          rw [hE] at hhead
          simp only [List.head?_cons, Option.some.injEq] at hhead
          exact ⟨t, by rw [hhead]⟩
    rw [generateRecommendations, ht]
    exact emitAll_countHigh_eq_one m h0 t (emitRec_zero_emits h70 hg)

/-- C5 counterexample: five files in five languages, of which the first
contributes 3 typed characters and 2 paste events.  Coding proficiency
scores 60 (below 70) and is the lowest category, but its typing ratio of
0.6 is at least 0.5, so its recommendation is suppressed and NO
recommendation (in particular no high-priority one) is produced, refuting
the claim that at least one category below 70 forces exactly one
high-priority recommendation. -/
theorem generateRecommendations_no_high_counterexample :
    let m := extractBehavioralMetrics
      [⟨"typescript", 3, 2, 0, 0, 0, 0, 0, 0⟩, mkFM "python", mkFM "go",
       mkFM "rust", mkFM "java"] 1 0
    codingScore m = 60 ∧
    (calculateCategoryScores m).map SkillScore.score = [60, 100, 100, 100, 100] ∧
    generateRecommendations (calculateCategoryScores m) m = [] := by
  intro m
  have hm : m = extractBehavioralMetrics
      [⟨"typescript", 3, 2, 0, 0, 0, 0, 0, 0⟩, mkFM "python", mkFM "go",
       mkFM "rust", mkFM "java"] 1 0 := rfl
  rw [hm]
  set M := extractBehavioralMetrics
      [⟨"typescript", 3, 2, 0, 0, 0, 0, 0, 0⟩, mkFM "python", mkFM "go",
       mkFM "rust", mkFM "java"] 1 0 with hMdef
  have hratio : M.typingToTotalRatio = 3/5 := by
    rw [hMdef]
    norm_num [extractBehavioralMetrics, mkFM]
  have hc : codingScore M = 60 := by
    rw [codingScore, hratio]
    norm_num [jsRound]
  have hps : problemSolvingScore M = 100 := by
    rw [hMdef]
    norm_num [problemSolvingScore, editsPerMinute, activeMinutes,
      extractBehavioralMetrics, mkFM, jsRound]
  have hfs : focusScore M = 100 := by
    rw [hMdef]
    norm_num [focusScore, extractBehavioralMetrics, mkFM, jsRound]
  have hq : qualityScore M = 100 := by
    rw [hMdef]
    norm_num [qualityScore, extractBehavioralMetrics, mkFM, jsRound]
  have hv : versatilityScore M = 100 := by
    have hl : M.languages = ["typescript", "python", "go", "rust", "java"] := by
      rw [hMdef]
      rfl
    rw [versatilityScore, hl]
    norm_num
  have hlist : calculateCategoryScores M =
      [⟨SkillCategory.codingProficiency, 60, SkillLevel.advanced⟩,
       ⟨SkillCategory.problemSolving, 100, SkillLevel.expert⟩,
       ⟨SkillCategory.focusConsistency, 100, SkillLevel.expert⟩,
       ⟨SkillCategory.codeQuality, 100, SkillLevel.expert⟩,
       ⟨SkillCategory.languageVersatility, 100, SkillLevel.expert⟩] := by
    rw [calculateCategoryScores, hc, hps, hfs, hq, hv]
    norm_num [scoreToLevel]
  refine ⟨hc, by rw [hlist]; rfl, ?_⟩
  rw [generateRecommendations, hlist]
  have hsort : stableSortBy (fun a b : SkillScore => a.score ≤ b.score)
      [⟨SkillCategory.codingProficiency, 60, SkillLevel.advanced⟩,
       ⟨SkillCategory.problemSolving, 100, SkillLevel.expert⟩,
       ⟨SkillCategory.focusConsistency, 100, SkillLevel.expert⟩,
       ⟨SkillCategory.codeQuality, 100, SkillLevel.expert⟩,
       ⟨SkillCategory.languageVersatility, 100, SkillLevel.expert⟩] =
      [⟨SkillCategory.codingProficiency, 60, SkillLevel.advanced⟩,
       ⟨SkillCategory.problemSolving, 100, SkillLevel.expert⟩,
       ⟨SkillCategory.focusConsistency, 100, SkillLevel.expert⟩,
       ⟨SkillCategory.codeQuality, 100, SkillLevel.expert⟩,
       ⟨SkillCategory.languageVersatility, 100, SkillLevel.expert⟩] := by
    decide
  rw [hsort]
  rw [emitAll, emitAll, emitAll, emitAll, emitAll, emitAll]
  rw [emitRec_eq, emitRec_eq, emitRec_eq, emitRec_eq, emitRec_eq]
  rw [hratio]
  norm_num

/-- Witness for C5 amended: with no files at all, coding proficiency
scores 0 with typing ratio 0 (below 0.5), is the sorted head, and exactly
one high-priority recommendation is emitted. -/
theorem generateRecommendations_amended_witness :
    countHigh (generateRecommendations
      (calculateCategoryScores (extractBehavioralMetrics [] 0 0))
      (extractBehavioralMetrics [] 0 0)) = 1 := by
  set M := extractBehavioralMetrics [] 0 0 with hMdef
  have hratio : M.typingToTotalRatio = 0 := by
    rw [hMdef]
    norm_num [extractBehavioralMetrics]
  have hc : codingScore M = 0 := by
    rw [codingScore, hratio]
    norm_num [jsRound]
  have hps : problemSolvingScore M = 100 := by
    rw [hMdef]
    norm_num [problemSolvingScore, editsPerMinute, activeMinutes,
      extractBehavioralMetrics, jsRound]
  have hfs : focusScore M = 0 := by
    rw [hMdef]
    norm_num [focusScore, extractBehavioralMetrics, jsRound]
  have hq : qualityScore M = 100 := by
    rw [hMdef]
    norm_num [qualityScore, extractBehavioralMetrics, jsRound]
  have hv : versatilityScore M = 0 := by
    have hl : M.languages = [] := by
      rw [hMdef]
      rfl
    rw [versatilityScore, hl]
    norm_num
  have hlist : calculateCategoryScores M =
      [⟨SkillCategory.codingProficiency, 0, SkillLevel.beginner⟩,
       ⟨SkillCategory.problemSolving, 100, SkillLevel.expert⟩,
       ⟨SkillCategory.focusConsistency, 0, SkillLevel.beginner⟩,
       ⟨SkillCategory.codeQuality, 100, SkillLevel.expert⟩,
       ⟨SkillCategory.languageVersatility, 0, SkillLevel.beginner⟩] := by
    rw [calculateCategoryScores, hc, hps, hfs, hq, hv]
    norm_num [scoreToLevel]
  have hhead : (stableSortBy (fun a b : SkillScore => a.score ≤ b.score)
      (calculateCategoryScores M)).head? =
      some ⟨SkillCategory.codingProficiency, 0, SkillLevel.beginner⟩ := by
    rw [hlist]
    decide
  exact (generateRecommendations_amended M).2.2.2
    ⟨SkillCategory.codingProficiency, 0, SkillLevel.beginner⟩ hhead
    (by decide) (Or.inr (by rw [hratio]; norm_num))

/-!
## Theorems for feature-extraction totality (C9)
-/

/-- A guarded division with a nonzero denominator succeeds. -/
lemma jdiv_isSome {a b : ℚ} (h : b ≠ 0) : (jdiv a b).isSome := by
  unfold jdiv
  rw [if_neg h]
  rfl

/-- A division guarded by a positive natural denominator succeeds. -/
lemma guard_natDiv_isSome (a dflt : ℚ) (n : ℕ) :
    (if 0 < n then jdiv a (n : ℚ) else some dflt).isSome := by
  split_ifs with h
  · exact jdiv_isSome (by exact_mod_cast Nat.pos_iff_ne_zero.mp h)
  · rfl

/-- A division guarded by a positive integer denominator succeeds. -/
lemma guard_intDiv_isSome (a dflt : ℚ) (z : ℤ) :
    (if 0 < z then jdiv a (z : ℚ) else some dflt).isSome := by
  split_ifs with h
  · exact jdiv_isSome (by exact_mod_cast ne_of_gt h)
  · rfl

/-- A division guarded by a positive rational denominator succeeds. -/
lemma guard_ratDiv_isSome (a dflt q : ℚ) :
    (if 0 < q then jdiv a q else some dflt).isSome := by
  split_ifs with h
  · exact jdiv_isSome (ne_of_gt h)
  · rfl

/-- A bind of defined computations is defined. -/
lemma optionBind_isSome {o : Option α} {f : α → Option β}
    (h1 : o.isSome) (h2 : ∀ x, (f x).isSome) : (o.bind f).isSome := by
  cases o with
  | none => exact absurd h1 (by simp)
  | some v => exact h2 v

/-- The structural scanner is total: its two divisions are guarded. -/
lemma extractStructuralMetrics_isSome (lines : List (List Char)) :
    (extractStructuralMetrics lines).isSome := by
  unfold extractStructuralMetrics
  exact optionBind_isSome (guard_natDiv_isSome _ _ _)
    (fun _ => optionBind_isSome (guard_natDiv_isSome _ _ _) (fun _ => rfl))

/-- The comment scanner is total: its density division is guarded. -/
lemma extractCommentMetrics_isSome (lines : List (List Char))
    (langKey : String) (codeLines : ℤ) :
    (extractCommentMetrics lines langKey codeLines).isSome := by
  unfold extractCommentMetrics
  exact optionBind_isSome (guard_intDiv_isSome _ _ _) (fun _ => rfl)

/-- The naming analyzer is total: all its divisions happen behind the
early return for an empty identifier list. -/
lemma extractNamingMetrics_isSome (code : List Char) (langKey : String) :
    (extractNamingMetrics code langKey).isSome := by
  unfold extractNamingMetrics
  dsimp only
  split_ifs with h
  · rfl
  · have hlen : ((((wordRuns code).filter
        (fun r => identStartOk r && 1 < r.length &&
          !(isKeyword (String.mk r) langKey))).length : ℚ)) ≠ 0 := by
      simp only [ne_eq, Nat.cast_eq_zero, List.length_eq_zero]
      intro h0
      rw [h0] at h
      exact h rfl
    exact optionBind_isSome (jdiv_isSome hlen)
      (fun _ => optionBind_isSome (jdiv_isSome hlen)
        (fun _ => optionBind_isSome (jdiv_isSome hlen) (fun _ => rfl)))

/-- The quality scanner is total: both ratio divisions are guarded. -/
lemma extractQualityMetrics_isSome (lines : List (List Char)) :
    (extractQualityMetrics lines).isSome := by
  unfold extractQualityMetrics
  exact optionBind_isSome (guard_natDiv_isSome _ _ _)
    (fun _ => optionBind_isSome (guard_natDiv_isSome _ _ _) (fun _ => rfl))

/-- The temporal extractor is total: absent counters default to 0 and all
three divisions are guarded. -/
lemma extractTemporalMetrics_isSome (trackingMetrics : Option FileMetrics) :
    (extractTemporalMetrics trackingMetrics).isSome := by
  unfold extractTemporalMetrics
  cases trackingMetrics with
  | none => rfl
  | some t =>
      exact optionBind_isSome (guard_ratDiv_isSome _ _ _)
        (fun _ => optionBind_isSome (guard_ratDiv_isSome _ _ _)
          (fun _ => optionBind_isSome (guard_natDiv_isSome _ _ _) (fun _ => rfl)))

/-- Feature extraction is total: for every input text, language name,
pattern tables and optional tracking counters, `extract` returns a defined
`CodeFeatures` record, because every internal division is guarded against
a zero denominator. -/
lemma extract_total (code : List Char) (language : String)
    (fnPats clsPats impPats : List (List Char → Bool))
    (trackingMetrics : Option FileMetrics) :
    (extract code language fnPats clsPats impPats trackingMetrics).isSome = true := by
  unfold extract
  exact optionBind_isSome (extractStructuralMetrics_isSome _)
    (fun _ => optionBind_isSome (extractCommentMetrics_isSome _ _ _)
      (fun _ => optionBind_isSome (extractNamingMetrics_isSome _ _)
        (fun _ => optionBind_isSome (extractQualityMetrics_isSome _)
          (fun _ => optionBind_isSome (extractTemporalMetrics_isSome _)
            (fun _ => rfl)))))


/-!
## Default values at zero denominators (C9)

The zero-denominator defaults are exhibited on the empty input text, whose
single empty line makes every listed denominator zero (no characters, no
code lines, no identifiers, no space-indented lines, no counters).  All
divisions then default to 0 EXCEPT indentation consistency, whose guard
(`indentSizes.length > 0 ? consistent / total : 1`) defaults to 1.
-/

/-- A single empty line is one blank line, for every language key (the
comment patterns are never consulted on a blank line). -/
lemma extractBasicMetrics_empty_line (langKey : String) :
    extractBasicMetrics [[]] langKey = ⟨1, 0, 0, 1⟩ := rfl

/-- On a single empty line, no comment is counted and the density guard
(zero code lines) defaults to 0, for every language key. -/
lemma extractCommentMetrics_empty_line (langKey : String) :
    extractCommentMetrics [[]] langKey 0 =
      some { commentDensity := 0, blockCommentCount := 0,
             inlineCommentCount := 0, docstringCount := 0 } := by
  unfold extractCommentMetrics COMMENT_PATTERNS
  split_ifs <;>
    norm_num [trimChars, testStartAfterWs, containsSub, defaultCommentPatterns,
      jdiv, round2, jsRound, pyTriple, dqTriple, shellStart] <;>
    first | omega | decide

/-- On a single empty line the average-line-length guard defaults to 0 but
the indentation-consistency guard (no space-indented lines) defaults
to 1. -/
lemma extractStructuralMetrics_empty_line :
    extractStructuralMetrics [[]] =
      some { averageLineLength := 0, maxLineLength := 0,
             indentationConsistency := 1,
             indentationStyle := IndentStyle.spaces, indentationSize := 2 } := by
  norm_num [extractStructuralMetrics, leadingWs, startsWithWs, jdiv, round2, jsRound]

/-- On the empty text there are no identifiers and the early return yields
all-zero naming metrics, for every language key. -/
lemma extractNamingMetrics_empty_text (langKey : String) :
    extractNamingMetrics "".toList langKey =
      some { averageVariableNameLength := 0, camelCaseRatio := 0,
             snake_caseRatio := 0, singleCharVarCount := 0 } := rfl

/-- On a single empty line the duplicate-line guard defaults to 0 and the
long-line ratio is 0. -/
lemma extractQualityMetrics_empty_line :
    extractQualityMetrics [[]] =
      some { duplicateLineRatio := 0, longLineRatio := 0, emptyBlockCount := 0 } := by
  norm_num [extractQualityMetrics, trimChars, countEmptyBraces, countEmptyBracesAux,
    List.intercalate, jdiv, round2, jsRound]
  decide

/-- Absent tracking counters give all-zero temporal metrics. -/
lemma extractTemporalMetrics_none :
    extractTemporalMetrics none =
      some { typingSpeed := 0, editFrequency := 0, pasteRatio := 0 } := rfl

/-- The full feature record of the empty input text, for every language
name: every ratio is 0 except `indentationConsistency`, which is 1
(the `cyclomaticComplexity` of 3 is the empty-match behaviour of the
compiled regexes for the `||` and `??` tokens, see C3). -/
lemma extract_empty_text (language : String) :
    extract "".toList language [] [] [] none =
      some { totalLines := 1, codeLines := 0, commentLines := 0, blankLines := 1,
             averageLineLength := 0, maxLineLength := 0,
             indentationConsistency := 1, indentationStyle := IndentStyle.spaces,
             indentationSize := 2,
             commentDensity := 0, blockCommentCount := 0, inlineCommentCount := 0,
             docstringCount := 0,
             functionCount := 0, classCount := 0, importCount := 0,
             cyclomaticComplexity := 3, nestingDepth := 0,
             averageVariableNameLength := 0, camelCaseRatio := 0,
             snake_caseRatio := 0, singleCharVarCount := 0,
             duplicateLineRatio := 0, longLineRatio := 0, emptyBlockCount := 0,
             typingSpeed := 0, editFrequency := 0, pasteRatio := 0,
             language := language, extractionVersion := EXTRACTION_VERSION } := by
  unfold extract
  dsimp only
  rw [show splitOnNl "".toList = [[]] from rfl]
  rw [extractBasicMetrics_empty_line]
  dsimp only
  rw [extractStructuralMetrics_empty_line, extractCommentMetrics_empty_line,
    extractNamingMetrics_empty_text, extractQualityMetrics_empty_line,
    extractTemporalMetrics_none]
  simp only [Option.some_bind]
  rfl

/-- C9 counterexample: on the empty input text the denominator of the
indentation-consistency division is zero (there are no space-indented
lines), and the reported `indentationConsistency` is 1, not the default 0
the claim states for every listed division. -/
theorem extract_indentation_default_counterexample :
    (extract "".toList "plaintext" [] [] [] none).map
        (fun f => f.indentationConsistency) = some 1 ∧
    (extract "".toList "plaintext" [] [] [] none).map
        (fun f => f.indentationConsistency) ≠ some 0 := by
  rw [extract_empty_text "plaintext"]
  constructor
  · rfl
  · norm_num [Option.map]

/-- C9 amended: feature extraction never fails and every division
special-cases a zero denominator to a fixed finite default instead of an
undefined value — 0 for every listed division EXCEPT indentation
consistency, which defaults to 1.  Part one is totality over all inputs;
part two exhibits the defaults on the empty input text, where every
listed denominator is zero. -/
theorem extract_total_and_defaults :
    (∀ (code : List Char) (language : String)
       (fnPats clsPats impPats : List (List Char → Bool))
       (trackingMetrics : Option FileMetrics),
       (extract code language fnPats clsPats impPats trackingMetrics).isSome = true) ∧
    (∀ language : String,
       extract "".toList language [] [] [] none =
         some { totalLines := 1, codeLines := 0, commentLines := 0, blankLines := 1,
                averageLineLength := 0, maxLineLength := 0,
                indentationConsistency := 1, indentationStyle := IndentStyle.spaces,
                indentationSize := 2,
                commentDensity := 0, blockCommentCount := 0, inlineCommentCount := 0,
                docstringCount := 0,
                functionCount := 0, classCount := 0, importCount := 0,
                cyclomaticComplexity := 3, nestingDepth := 0,
                averageVariableNameLength := 0, camelCaseRatio := 0,
                snake_caseRatio := 0, singleCharVarCount := 0,
                duplicateLineRatio := 0, longLineRatio := 0, emptyBlockCount := 0,
                typingSpeed := 0, editFrequency := 0, pasteRatio := 0,
                language := language, extractionVersion := EXTRACTION_VERSION }) :=
  ⟨extract_total, extract_empty_text⟩

end Extension12
